import Mathlib

/-!
Verification development for the HVDC warehouse movement/stock-ledger engine.

The definitions below are a shallow embedding of the Python sources:
  * `hvdc_ontology_pipeline.py` (canonicalizers, loader row processing,
    `EnhancedTransactionEngine.create_transaction_log`,
    `EnhancedAnalysisEngine.calculate_daily_stock`,
    `EnhancedAnalysisEngine.validate_stock_integrity`,
    `EnhancedAnalysisEngine.analyze_dead_stock`), and
  * the analysis script (`map_loc`, `normalize` helpers,
    `StockEngine.create_proper_monthly_warehouse_analysis`,
    `StockEngine.reconcile`, `DataExtractor.extract_case_movements`).

Modelling conventions:
  * pandas floats are modelled as `Rat`; the float `NaN` that can flow through
    a quantity column is modelled as `none` in `Option Rat`.
  * timestamps are `Nat` seconds; `dt.date` truncation is division by 86400;
    the strftime second-resolution transaction id is modelled by the triple
    (case, timestamp, IN/OUT tag), which the strftime format determines
    injectively at second granularity.
  * a missing scalar (`None`/`NaN` under `pd.isna`) is `Option.none`.
  * pandas multi-key `sort_values` is `numpy.lexsort`, a stable sort by the
    key tuple; it is embedded as a sort by (key, original position), which is
    the same permutation.  Python `list.sort` is likewise stable.
  * `groupby` with default `sort=True` visits keys in ascending order and
    keeps the frame order inside each group.
-/

set_option maxRecDepth 4000

namespace HVDC

/-! ### Character and string utilities -/

/-- Python `str.lower` (ASCII range, which covers every pattern literal used). -/
def lowerStr (s : String) : String := String.mk (s.data.map Char.toLower)

/-- Python `str.upper` (ASCII range). -/
def upperStr (s : String) : String := String.mk (s.data.map Char.toUpper)

/-- Characters removed by Python `str.strip()` with no argument. -/
def isPyWs (c : Char) : Bool :=
  c = ' ' || c = '\t' || c = '\n' || c = '\r' || c = Char.ofNat 11 || c = Char.ofNat 12

/-- Python `str.strip()`: drop leading and trailing whitespace. -/
def pyStrip (s : String) : String :=
  String.mk (((s.data.dropWhile isPyWs).reverse.dropWhile isPyWs).reverse)

/-- `needle` occurs as a contiguous substring of `hay` (Python `needle in hay`). -/
def subOf (needle : List Char) : List Char → Bool
  | [] => needle.isEmpty
  | c :: t => needle.isPrefixOf (c :: t) || subOf needle t

/-- Python substring test `needle in hay` on strings. -/
def containsSub (hay needle : String) : Bool := subOf needle.data hay.data

/-- Strict lexicographic order on `List Nat`, the comparison kernel used by
every sort in this file. -/
def lexLtN : List Nat → List Nat → Bool
  | [], [] => false
  | [], _ :: _ => true
  | _ :: _, [] => false
  | a :: as, b :: bs => if a < b then true else if b < a then false else lexLtN as bs

/-- Code points of a string; Python compares strings by code-point
lexicographic order, which `lexLtN` reproduces on these lists. -/
def codesOf (s : String) : List Nat := s.data.map Char.toNat

/-- Python string `<`. -/
def strLt (a b : String) : Bool := lexLtN (codesOf a) (codesOf b)

/-- Nat `<` as a Bool comparison, for sorting date keys. -/
def natLt (a b : Nat) : Bool := decide (a < b)

/-! ### sorted-unique lists (pandas sorted `unique()` of a key column) -/

/-- Insert into a strictly sorted list, skipping an element already present. -/
def insUniq {α : Type} [DecidableEq α] (lt : α → α → Bool) (a : α) : List α → List α
  | [] => [a]
  | b :: t => if lt a b then a :: b :: t else if a = b then b :: t else b :: insUniq lt a t

/-- Sorted list of the distinct elements of `l` (ascending by `lt`). -/
def sortUniq {α : Type} [DecidableEq α] (lt : α → α → Bool) : List α → List α
  | [] => []
  | a :: t => insUniq lt a (sortUniq lt t)

/-! ### Stable sorting by a key (numpy lexsort / Python stable list.sort).

An element is paired with its original position; the sort relation compares
the key extended by that position, so the order is total and the resulting
unique sorted permutation keeps equal-key elements in original order. -/

/-- Key of a positioned element: the element key with the original position as
final tie-break component. -/
def posKey {α : Type} (k : α → List Nat) (x : Nat × α) : List Nat := k x.2 ++ [x.1]

/-- Total order used by the stable sort: `x` comes no later than `y`. -/
def sortedRel {α : Type} (k : α → List Nat) (x y : Nat × α) : Prop :=
  lexLtN (posKey k y) (posKey k x) = false

instance sortedRelDecidable {α : Type} (k : α → List Nat) : DecidableRel (sortedRel k) :=
  fun _ _ => inferInstanceAs (Decidable (_ = false))

/-- Stable sort keeping the original positions. -/
def stableSortKeyed {α : Type} (k : α → List Nat) (l : List α) : List (Nat × α) :=
  List.insertionSort (sortedRel k) l.enum

/-- Stable sort by key `k`, forgetting positions. -/
def stableSortBy {α : Type} (k : α → List Nat) (l : List α) : List α :=
  (stableSortKeyed k l).map (·.2)

/-! ### Python scalar cells -/

/-- A spreadsheet cell as the Python code sees it: a missing column lookup,
a float NaN, a number, or a text value. -/
inductive Cell : Type
  | absent : Cell
  | nan : Cell
  | num : Rat → Cell
  | str : String → Cell
  deriving DecidableEq, Repr

/-- Value of digit characters, most significant first. -/
def digitsVal (l : List Char) : Nat := l.foldl (fun a c => a * 10 + (c.toNat - 48)) 0

/-- Numeric parse of a string as `pd.to_numeric` accepts it for plain decimal
literals: optional sign, digits, optional fractional part.  A string outside
this shape parses to NaN (`none`). -/
def pyParseNum (s : String) : Option Rat :=
  let t := (pyStrip s).data
  let signed : Rat × List Char :=
    match t with
    | '-' :: r => (-1, r)
    | '+' :: r => (1, r)
    | r => (1, r)
  let intPart := signed.2.takeWhile Char.isDigit
  let rest := signed.2.dropWhile Char.isDigit
  match rest with
  | [] => if intPart.isEmpty then none else some (signed.1 * (digitsVal intPart : Rat))
  | '.' :: frac =>
    if frac.all Char.isDigit && (!intPart.isEmpty || !frac.isEmpty) then
      some (signed.1 * ((digitsVal intPart : Rat) + (digitsVal frac : Rat) / (10 : Rat) ^ frac.length))
    else none
  | _ => none

/-- `pd.to_numeric(value, errors=coerce)`: numbers pass through, NaN stays
NaN, text is parsed or coerced to NaN.  (`absent` never reaches this point in
the modelled code path.) -/
def to_numeric : Cell → Option Rat
  | Cell.absent => none
  | Cell.nan => none
  | Cell.num q => some q
  | Cell.str s => pyParseNum s

/-- `row.get(qty_col, 1)`: when the quantity column was not found the default
`1` is used, otherwise the cell value itself. -/
def rowGetQty : Cell → Cell
  | Cell.absent => Cell.num 1
  | c => c

/-- Python `x or 1` on the float result of `to_numeric`: `0` is falsy and is
replaced by `1`, while NaN is truthy in Python and passes through unchanged. -/
def orOne : Option Rat → Option Rat
  | none => none
  | some q => if q = 0 then some 1 else some q

/-- Quantity resolution of `EnhancedDataLoader._process_warehouse_file`
(line `qty = pd.to_numeric(row.get(qty_col, 1), errors=coerce) or 1`). -/
def hvdcQty (qtyCell : Cell) : Option Rat := orOne (to_numeric (rowGetQty qtyCell))

/-- Quantity resolution of `DataExtractor.extract_case_movements`
(line `qty = row[qty_col] if qty_col and pd.notna(row[qty_col]) else 1`):
the raw cell value is kept unparsed when it is present and non-null. -/
def part000Qty : Cell → Cell
  | Cell.absent => Cell.num 1
  | Cell.nan => Cell.num 1
  | c => c

/-! ### Location / site canonicalizers -/

/-- A `LOC_MAP` regex: the patterns used are literal runs separated by `.*`,
optionally beginning or ending with `.*`.  `lead`/`trail` record the optional
outer `.*`; `segs` are the literal runs in order. -/
structure LocPat : Type where
  lead : Bool
  segs : List String
  trail : Bool
  deriving DecidableEq, Repr

/-- Full match of `segs` (interleaved with `.*` gaps) against `s`.  A gap
matches any run of characters not containing a newline, since regex `.` does
not match a newline. -/
def segsMatch : List (List Char) → Bool → Bool → List Char → Bool
  | [], trail, _, s => s.isEmpty || (trail && s.all (fun c => c ≠ '\n'))
  | seg :: rest, trail, lead, s =>
    if lead then
      (List.range (s.length + 1)).any (fun i =>
        (s.take i).all (fun c => c ≠ '\n') &&
        seg.isPrefixOf (s.drop i) &&
        segsMatch rest trail true ((s.drop i).drop seg.length))
    else
      seg.isPrefixOf s && segsMatch rest trail true (s.drop seg.length)

/-- `re.fullmatch(pattern, s, re.IGNORECASE)` for a `LocPat`, by lowering both
sides (the rule literals are ASCII). -/
def patMatch (p : LocPat) (s : String) : Bool :=
  segsMatch (p.segs.map (fun seg => (lowerStr seg).data)) p.trail p.lead (lowerStr s).data

/-- The ordered `LOC_MAP` rule table of the analysis script. -/
def LOC_MAP : List (LocPat × String) :=
  [(⟨false, ["M44"], true⟩, "DSV Indoor"),
   (⟨false, ["M1"], true⟩, "DSV Al Markaz"),
   (⟨false, ["OUT"], true⟩, "DSV Outdoor"),
   (⟨false, ["MOSB"], true⟩, "MOSB"),
   (⟨false, ["MZP"], true⟩, "DSV MZP"),
   (⟨true, ["Indoor"], true⟩, "DSV Indoor"),
   (⟨true, ["Outdoor"], true⟩, "DSV Outdoor"),
   (⟨true, ["Al", "Markaz"], true⟩, "DSV Al Markaz"),
   (⟨true, ["Markaz"], true⟩, "DSV Al Markaz"),
   (⟨false, ["Hauler", "Indoor"], false⟩, "DSV Indoor"),
   (⟨false, ["DHL", "WH"], false⟩, "DHL WH"),
   (⟨false, ["AAA", "Storage"], false⟩, "AAA Storage"),
   (⟨false, ["Shifting"], false⟩, "Shifting")]

/-- First rule of the table whose pattern fully matches `s`. -/
def findFirstPat : List (LocPat × String) → String → Option String
  | [], _ => none
  | (p, canon) :: rest, s => if patMatch p s then some canon else findFirstPat rest s

/-- `map_loc` of the analysis script: `None`/NaN input gives UNKNOWN, the
first matching `LOC_MAP` rule wins, an unmatched input is returned stripped. -/
def map_loc (raw : Option String) : String :=
  match raw with
  | none => "UNKNOWN"
  | some raw =>
    let rawStr := pyStrip raw
    match findFirstPat LOC_MAP rawStr with
    | some canon => canon
    | none => rawStr

/-- Site substring table of `normalize_site_name` (dict order preserved). -/
def SITE_SUBS : List (String × String) :=
  [("AGI", "AGI"), ("DAS", "DAS"), ("MIR", "MIR"), ("SHU", "SHU")]

/-- First canonical site whose pattern occurs in the uppercased input. -/
def firstSiteSub : List (String × String) → String → Option String
  | [], _ => none
  | (pat, canon) :: rest, u => if containsSub u pat then some canon else firstSiteSub rest u

/-- `normalize_site_name` of `hvdc_ontology_pipeline.py`: NaN gives UNK,
otherwise the first of AGI/DAS/MIR/SHU occurring as a substring of the
uppercased input, else UNK. -/
def normalize_site_name (raw : Option String) : String :=
  match raw with
  | none => "UNK"
  | some s => (firstSiteSub SITE_SUBS (upperStr s)).getD "UNK"

/-- Disallow-list of `_extract_warehouse_from_column_name`. -/
def DATE_KEYWORDS : List String :=
  ["etd", "eta", "atd", "ata", "date", "time", "departure", "arrival"]

/-- Warehouse substring table of `_extract_warehouse_from_column_name`. -/
def WAREHOUSE_SUBS : List (String × List String) :=
  [("DSV Indoor", ["indoor", "m44", "hauler indoor"]),
   ("DSV Outdoor", ["outdoor", "out "]),
   ("DSV Al Markaz", ["markaz", "al markaz", "m1"]),
   ("MOSB", ["mosb", "barge"]),
   ("DSV MZP", ["mzp"]),
   ("DHL WH", ["dhl"]),
   ("AAA Storage", ["aaa"]),
   ("Shifting", ["shifting"])]

/-- Lowercase site substrings checked after the warehouse table. -/
def SITE_SUBS_LOWER : List String := ["agi", "das", "mir", "shu"]

/-- First warehouse whose pattern list has a substring hit. -/
def firstWarehouse : List (String × List String) → String → Option String
  | [], _ => none
  | (wh, pats) :: rest, l => if pats.any (fun p => containsSub l p) then some wh else firstWarehouse rest l

/-- `EnhancedDataLoader._extract_warehouse_from_column_name`: a column whose
lowered name contains a date keyword is not a warehouse; otherwise the first
warehouse pattern hit wins, then a site substring (uppercased), else UNKNOWN. -/
def extract_warehouse_from_column_name (colName : String) : String :=
  let l := lowerStr colName
  if DATE_KEYWORDS.any (fun k => containsSub l k) then "UNKNOWN"
  else
    match firstWarehouse WAREHOUSE_SUBS l with
    | some wh => wh
    | none =>
      match (SITE_SUBS_LOWER.filter (fun s => containsSub l s)).head? with
      | some s => upperStr s
      | none => "UNKNOWN"

/-! ### Loader row processing -/

/-- One movement event emitted by `_process_warehouse_file` for a row/column
intersection.  `qty` is `none` when the Python value is the float NaN. -/
structure LoadEvent : Type where
  caseNo : String
  date : Nat
  qty : Option Rat
  location : String
  rawLocation : String
  sourceFile : String
  deriving DecidableEq, Repr

/-- The per-row event extraction loop of `_process_warehouse_file`.  A date
column is given with its parsed cell (`none` when the cell is null or fails
`pd.to_datetime(..., errors=coerce)`); a valid date on a column whose name
maps to a real warehouse yields one event.  The events of the row are then
sorted by date (Python `list.sort`, stable). -/
def processWarehouseRow (idx : Nat) (caseCell : Option String) (qtyCell : Cell)
    (dateCols : List (String × Option Nat)) (sourceFile : String) : List LoadEvent :=
  let caseNo := match caseCell with
    | some s => s
    | none => "CASE_" ++ toString idx
  let qty := hvdcQty qtyCell
  let evs := dateCols.filterMap (fun cd =>
    match cd.2 with
    | none => none
    | some d =>
      let location := extract_warehouse_from_column_name cd.1
      if location = "UNKNOWN" then none
      else some (LoadEvent.mk caseNo d qty location cd.1 sourceFile))
  stableSortBy (fun e => [e.date]) evs

/-! ### Transaction classifier (`EnhancedTransactionEngine.create_transaction_log`) -/

/-- One transaction row of the transaction log. -/
structure Tx : Type where
  caseNo : String
  date : Nat
  qty : Option Rat
  txType : String
  refined : String
  locFrom : String
  locTo : String
  location : String
  site : String
  sourceFile : String
  deriving DecidableEq, Repr

/-- The `Tx_ID` of a transaction: case, second-resolution timestamp and the
IN/OUT suffix, which is what the strftime format string encodes. -/
def txId (t : Tx) : String × Nat × String := (t.caseNo, t.date, t.txType)

/-- The ENTRY transaction built for an event (`tx_in` in the source). -/
def mkIn (prevLoc : String) (e : LoadEvent) : Tx :=
  Tx.mk e.caseNo e.date e.qty "IN" "IN" prevLoc e.location e.location
    (normalize_site_name (some e.location)) e.sourceFile

/-- The EXIT transaction built for an event with predecessor `p`
(`tx_out` in the source): FINAL_OUT when the destination resolves to a site. -/
def mkOut (p e : LoadEvent) : Tx :=
  let site := normalize_site_name (some e.location)
  let refined := if site ≠ "UNK" then "FINAL_OUT" else "TRANSFER_OUT"
  Tx.mk e.caseNo e.date e.qty "OUT" refined p.location e.location p.location site e.sourceFile

/-- Per-case loop of `create_transaction_log`: an IN for every event, plus an
OUT against the previous location for every event after the first. -/
def caseTxs : Option LoadEvent → List LoadEvent → List Tx
  | _, [] => []
  | none, e :: rest => mkIn "SOURCE" e :: caseTxs (some e) rest
  | some p, e :: rest => mkIn p.location e :: mkOut p e :: caseTxs (some e) rest

/-- Sort key of `raw_events.sort_values([Case_No, Date])`. -/
def evKey (e : LoadEvent) : List Nat := (codesOf e.caseNo).map (· + 1) ++ [0, e.date]

/-- The sorted event list with original positions retained. -/
def sortEventsK (l : List LoadEvent) : List (Nat × LoadEvent) := stableSortKeyed evKey l

/-- The sorted event list as `create_transaction_log` consumes it. -/
def sortEvents (l : List LoadEvent) : List LoadEvent := stableSortBy evKey l

/-- `drop_duplicates(subset=[Tx_ID])`: keep the first row for every id. -/
def dedupByKeyAux {α κ : Type} [DecidableEq κ] (key : α → κ) (seen : List κ) : List α → List α
  | [] => []
  | t :: rest =>
    if key t ∈ seen then dedupByKeyAux key seen rest
    else t :: dedupByKeyAux key (key t :: seen) rest

/-- `drop_duplicates` by a key, keeping first occurrences. -/
def dedupByKey {α κ : Type} [DecidableEq κ] (key : α → κ) (l : List α) : List α :=
  dedupByKeyAux key [] l

/-- `EnhancedTransactionEngine.create_transaction_log`: sort events by
(case, date) stably, process the cases in ascending order (`groupby`), emit
the IN/OUT pairs, and drop duplicate transaction ids. -/
def create_transaction_log (raw : List LoadEvent) : List Tx :=
  let sorted := sortEvents raw
  let cases := sortUniq strLt (sorted.map (·.caseNo))
  let txs := cases.flatMap (fun c => caseTxs none (sorted.filter (fun e => decide (e.caseNo = c))))
  dedupByKey txId txs

/-! ### Daily stock ledger (`EnhancedAnalysisEngine.calculate_daily_stock`) -/

/-- One row of the daily stock ledger. -/
structure StockRow : Type where
  Location : String
  Date : Nat
  Opening_Stock : Rat
  Inbound : Rat
  Transfer_Out : Rat
  Final_Out : Rat
  Total_Outbound : Rat
  Closing_Stock : Rat
  deriving DecidableEq, Repr

/-- `dt.date` truncation of a second-resolution timestamp to a day number. -/
def dateOf (ts : Nat) : Nat := ts / 86400

/-- Sum of quantities of the transactions at one location, day and refined
type (the pivoted `groupby(...).agg(Qty=sum)`; pandas sum skips NaN). -/
def sumQtyLDT (txs : List Tx) (loc : String) (d : Nat) (ty : String) : Rat :=
  ((txs.filter (fun t => decide (t.location = loc ∧ dateOf t.date = d ∧ t.refined = ty))).filterMap
    (·.qty)).sum

/-- The accumulation loop over the ordered active days of one location:
opening of the first row is the accumulator, each closing is carried
forward as the next opening. -/
def rowsFold (txs : List Tx) (loc : String) : List Nat → Rat → List StockRow
  | [], _ => []
  | d :: rest, opening =>
    let inbound := sumQtyLDT txs loc d "IN"
    let transfer := sumQtyLDT txs loc d "TRANSFER_OUT"
    let final := sumQtyLDT txs loc d "FINAL_OUT"
    let total := transfer + final
    let closing := opening + inbound - total
    StockRow.mk loc d opening inbound transfer final total closing :: rowsFold txs loc rest closing

/-- The ascending distinct days on which the location has any transaction
(the pivot index restricted to the location). -/
def locDates (txs : List Tx) (loc : String) : List Nat :=
  sortUniq natLt ((txs.filter (fun t => decide (t.location = loc))).map (fun t => dateOf t.date))

/-- The ascending distinct locations of the pivot, with the skipped
UNKNOWN/UNK pseudo-locations removed. -/
def stockLocs (txs : List Tx) : List String :=
  (sortUniq strLt (txs.map (·.location))).filter
    (fun l => decide (l ≠ "UNKNOWN" ∧ l ≠ "UNK"))

/-- `EnhancedAnalysisEngine.calculate_daily_stock`. -/
def calculate_daily_stock (txs : List Tx) : List StockRow :=
  (stockLocs txs).flatMap (fun l => rowsFold txs l (locDates txs l) 0)

/-! ### Stock integrity validation (`validate_stock_integrity`) -/

/-- One reported balance violation. -/
structure ValErr : Type where
  Location : String
  Date : Nat
  Expected : Rat
  Actual : Rat
  Difference : Rat
  deriving DecidableEq, Repr

/-- The validation verdict. -/
structure ValResult : Type where
  status : String
  errors : Nat
  details : List ValErr
  deriving DecidableEq, Repr

/-- A row violating the balance identity beyond the 0.01 tolerance. -/
def rowViol (r : StockRow) : Bool :=
  decide (1 / 100 < |r.Closing_Stock - (r.Opening_Stock + r.Inbound - r.Total_Outbound)|)

/-- One step of the validation loop: count and record a violating row. -/
def valStep (acc : Nat × List ValErr) (r : StockRow) : Nat × List ValErr :=
  if rowViol r then
    (acc.1 + 1,
     acc.2 ++ [ValErr.mk r.Location r.Date (r.Opening_Stock + r.Inbound - r.Total_Outbound)
       r.Closing_Stock |r.Closing_Stock - (r.Opening_Stock + r.Inbound - r.Total_Outbound)|])
  else acc

/-- `EnhancedAnalysisEngine.validate_stock_integrity`: SKIP on empty input,
else PASS with no errors or FAIL with the violation count and the first ten
violation records. -/
def validate_stock_integrity (rows : List StockRow) : ValResult :=
  if rows.isEmpty then ValResult.mk "SKIP" 0 []
  else
    let step := rows.foldl valStep (0, [])
    if step.1 = 0 then ValResult.mk "PASS" 0 []
    else ValResult.mk "FAIL" step.1 (step.2.take 10)

/-! ### Dead stock analysis (`analyze_dead_stock`) -/

/-- One dead-stock record. -/
structure DeadRec : Type where
  Case_No : String
  Last_Move_Date : Nat
  Days_Since_Last_Move : Int
  Qty : Option Rat
  Location : Option String
  Source_File : Option String
  deriving DecidableEq, Repr

/-- The rows of the transaction log belonging to one case, in log order. -/
def caseRows (txs : List Tx) (c : String) : List Tx :=
  txs.filter (fun t => decide (t.caseNo = c))

/-- `groupby(Case_No)[Date].max()` for one case. -/
def lastMoveDate (txs : List Tx) (c : String) : Option Nat :=
  ((caseRows txs c).map (·.date)).max?

/-- `(current_date - last_move).days`: floor division of the signed second
difference, as Python timedelta normalization computes it. -/
def daysBetween (now last : Nat) : Int := Int.fdiv ((now : Int) - (last : Int)) 86400

/-- `EnhancedAnalysisEngine.analyze_dead_stock` with `datetime.now()` made
explicit as `now`.  A case is kept when its day age is at least the
threshold; the merged columns are `Qty=first`, `Location=last`,
`Source_File=first` over the full per-case rows (pandas first/last skip
nulls; `Location` and `Source_File` are never null, `Qty` can be NaN). -/
def analyze_dead_stock (now : Nat) (threshold_days : Int) (txs : List Tx) : List DeadRec :=
  let cases := sortUniq strLt (txs.map (·.caseNo))
  cases.filterMap (fun c =>
    match lastMoveDate txs c with
    | none => none
    | some last =>
      if threshold_days ≤ daysBetween now last then
        some (DeadRec.mk c last (daysBetween now last)
          (((caseRows txs c).filterMap (·.qty)).head?)
          (((caseRows txs c).map (·.location)).getLast?)
          (((caseRows txs c).map (·.sourceFile)).head?))
      else none)

/-! ### Monthly warehouse analysis
(`StockEngine.create_proper_monthly_warehouse_analysis`) -/

/-- One raw movement record as consumed by the monthly analysis.  `month` is
the `YearMonth` of the record date (year-month index; string year-months sort
the same way since they are zero padded). -/
structure MRow : Type where
  Case_No : String
  month : Nat
  Loc_To : Option String
  Loc_From : Option String
  Site : Option String
  TxType : String
  Qty : Rat
  SQM : Rat
  deriving DecidableEq, Repr

/-- One normalized monthly transaction (step 1 of the analysis). -/
structure MTx : Type where
  Location : String
  month : Nat
  TxType : String
  Qty : Rat
  SQM : Rat
  deriving DecidableEq, Repr

/-- Step 1 of `create_proper_monthly_warehouse_analysis`: an IN at `Loc_To`
when present, and an OUT at `Loc_From` when the record is an OUT with a site
(the source writes `row.get(Loc_From, UNKNOWN)`; the missing side is
modelled as `none` and defaulted to UNKNOWN). -/
def normalizeMTx (rows : List MRow) : List MTx :=
  rows.flatMap (fun r =>
    (match r.Loc_To with
     | some lt => [MTx.mk lt r.month "IN" r.Qty r.SQM]
     | none => []) ++
    (match r.Site with
     | some _ => if r.TxType = "OUT" then [MTx.mk (r.Loc_From.getD "UNKNOWN") r.month "OUT" r.Qty r.SQM] else []
     | none => []))

/-- Monthly quantity aggregate per location, month, direction. -/
def monthSum (txs : List MTx) (loc : String) (m : Nat) (ty : String) : Rat :=
  ((txs.filter (fun t => decide (t.Location = loc ∧ t.month = m ∧ t.TxType = ty))).map (·.Qty)).sum

/-- Monthly SQM aggregate per location, month, direction. -/
def monthSumSQM (txs : List MTx) (loc : String) (m : Nat) (ty : String) : Rat :=
  ((txs.filter (fun t => decide (t.Location = loc ∧ t.month = m ∧ t.TxType = ty))).map (·.SQM)).sum

/-- One row of the monthly stock detail. -/
structure MStockRow : Type where
  Location : String
  YearMonth : Nat
  Opening_Stock : Rat
  Inbound_Qty : Rat
  Outbound_Qty : Rat
  Closing_Stock : Rat
  Inbound_SQM : Rat
  Outbound_SQM : Rat
  Net_Movement : Rat
  deriving DecidableEq, Repr

/-- The per-location loop over the full global month range, carrying the
closing stock into the next opening. -/
def mRowsFold (txs : List MTx) (loc : String) : List Nat → Rat → List MStockRow
  | [], _ => []
  | m :: rest, opening =>
    let inb := monthSum txs loc m "IN"
    let outb := monthSum txs loc m "OUT"
    let closing := opening + inb - outb
    MStockRow.mk loc m opening inb outb closing
      (monthSumSQM txs loc m "IN") (monthSumSQM txs loc m "OUT") (inb - outb)
      :: mRowsFold txs loc rest closing

/-- `sorted(tx_df[YearMonth].unique())` over all transactions. -/
def monthlyMonths (txs : List MTx) : List Nat := sortUniq natLt (txs.map (·.month))

/-- `sorted(tx_df[Location].unique())` over all transactions. -/
def monthlyLocs (txs : List MTx) : List String := sortUniq strLt (txs.map (·.Location))

/-- Steps 1, 4 and 5 of `create_proper_monthly_warehouse_analysis`: the
`monthly_stock_detail` rows.  Every location except UNKNOWN gets one row for
every month of the global month range. -/
def create_proper_monthly_stock (rows : List MRow) : List MStockRow :=
  let txs := normalizeMTx rows
  (monthlyLocs txs).flatMap (fun l =>
    if l = "UNKNOWN" then [] else mRowsFold txs l (monthlyMonths txs) 0)

/-! ### Reconciliation (`StockEngine.reconcile`) -/

/-- A daily stock row as consumed by `reconcile` (columns Loc, Date, Closing). -/
structure DailyRow : Type where
  Loc : String
  Date : Nat
  Closing : Rat
  deriving DecidableEq, Repr

/-- A row of the on-hand snapshot. -/
structure OnhandRow : Type where
  Loc_To : String
  Qty : Rat
  deriving DecidableEq, Repr

/-- One reconciliation record (`delta` is the source column written Δ). -/
structure ReconRec : Type where
  Loc : String
  Tx_Closing : Rat
  OnHand_Qty : Rat
  delta : Rat
  Status : String
  Alert_Level : String
  deriving DecidableEq, Repr

/-- `daily_stock.sort_values(Date).groupby(Loc).tail(1)[Closing]`: the
closing of the last row of the location in date order. -/
def lastClosing (daily : List DailyRow) (loc : String) : Option Rat :=
  ((stableSortBy (fun r => [r.Date]) (daily.filter (fun r => decide (r.Loc = loc)))).getLast?).map
    (·.Closing)

/-- `onhand.groupby(Loc_To)[Qty].sum()` for one location. -/
def snapSum (snap : List OnhandRow) (loc : String) : Rat :=
  ((snap.filter (fun r => decide (r.Loc_To = loc))).map (·.Qty)).sum

/-- `StockEngine.reconcile`: empty output when either side is empty, else one
record per location of the union (outer concat), missing sides filled with 0,
delta = snapshot minus ledger, OK within 5, alert level by the 5/10 bands. -/
def reconcile (daily : List DailyRow) (snap : List OnhandRow) : List ReconRec :=
  if daily.isEmpty || snap.isEmpty then []
  else
    let locs := sortUniq strLt (daily.map (·.Loc) ++ snap.map (·.Loc_To))
    locs.map (fun l =>
      let txc := (lastClosing daily l).getD 0
      let onh := snapSum snap l
      let d := onh - txc
      ReconRec.mk l txc onh d
        (if |d| ≤ 5 then "OK" else "ATTENTION")
        (if 10 < |d| then "HIGH" else if 5 < |d| then "MEDIUM" else "LOW"))

end HVDC

namespace HVDC

/-! ### Order lemmas for the comparison kernel -/

theorem lexLtN_irrefl : ∀ l : List Nat, lexLtN l l = false
  | [] => rfl
  | _ :: as => by simp [lexLtN, lexLtN_irrefl as]

theorem lexLtN_asymm : ∀ {a b : List Nat}, lexLtN a b = true → lexLtN b a = false
  | [], [], h => by simp [lexLtN] at h
  | [], _ :: _, _ => rfl
  | _ :: _, [], h => by simp [lexLtN] at h
  | a :: as, b :: bs, h => by
    by_cases hab : a < b
    · simp [lexLtN, if_pos hab, if_neg (Nat.lt_asymm hab)]
    · by_cases hba : b < a
      · simp [lexLtN, if_neg hab, if_pos hba] at h
      · simp only [lexLtN, if_neg hab, if_neg hba] at h ⊢
        exact lexLtN_asymm h

theorem lexLtN_trans : ∀ {a b c : List Nat},
    lexLtN a b = true → lexLtN b c = true → lexLtN a c = true
  | [], [], _, h1, _ => by simp [lexLtN] at h1
  | [], _ :: _, [], _, h2 => by simp [lexLtN] at h2
  | [], _ :: _, _ :: _, _, _ => rfl
  | _ :: _, [], _, h1, _ => by simp [lexLtN] at h1
  | _ :: _, _ :: _, [], _, h2 => by simp [lexLtN] at h2
  | a :: as, b :: bs, c :: cs, h1, h2 => by
    by_cases hab : a < b
    · by_cases hbc : b < c
      · simp [lexLtN, if_pos (Nat.lt_trans hab hbc)]
      · by_cases hcb : c < b
        · simp only [lexLtN, if_neg hbc, if_pos hcb] at h2
          exact absurd h2 Bool.false_ne_true
        · have hbc' : b = c := Nat.le_antisymm (Nat.le_of_not_lt hcb) (Nat.le_of_not_lt hbc)
          subst hbc'
          simp [lexLtN, if_pos hab]
    · by_cases hba : b < a
      · simp [lexLtN, if_neg hab, if_pos hba] at h1
      · have hab' : a = b := Nat.le_antisymm (Nat.le_of_not_lt hba) (Nat.le_of_not_lt hab)
        subst hab'
        simp only [lexLtN, if_neg hab, if_neg hba] at h1
        by_cases hac : a < c
        · simp [lexLtN, if_pos hac]
        · by_cases hca : c < a
          · simp [lexLtN, if_neg hac, if_pos hca] at h2
          · simp only [lexLtN, if_neg hac, if_neg hca] at h2 ⊢
            exact lexLtN_trans h1 h2

theorem lexLtN_connex : ∀ {a b : List Nat},
    lexLtN a b = false → lexLtN b a = false → a = b
  | [], [], _, _ => rfl
  | [], _ :: _, h1, _ => by simp [lexLtN] at h1
  | _ :: _, [], _, h2 => by simp [lexLtN] at h2
  | a :: as, b :: bs, h1, h2 => by
    by_cases hab : a < b
    · simp [lexLtN, if_pos hab] at h1
    · by_cases hba : b < a
      · simp [lexLtN, if_pos hba] at h2
      · have hab' : a = b := Nat.le_antisymm (Nat.le_of_not_lt hba) (Nat.le_of_not_lt hab)
        subst hab'
        simp only [lexLtN, if_neg hab, if_neg hba] at h1 h2
        rw [lexLtN_connex h1 h2]

theorem lexLtN_append_lt : ∀ (l : List Nat) {i j : Nat}, i < j →
    lexLtN (l ++ [i]) (l ++ [j]) = true
  | [], i, j, h => by simp [lexLtN, if_pos h]
  | a :: l, i, j, h => by
    simp only [List.cons_append, lexLtN, if_neg (Nat.lt_irrefl a)]
    exact lexLtN_append_lt l h

theorem strLt_trans : ∀ a b c : String, strLt a b = true → strLt b c = true →
    strLt a c = true := fun _ _ _ h1 h2 => lexLtN_trans h1 h2

theorem codesOf_inj {a b : String} (h : codesOf a = codesOf b) : a = b := by
  apply String.ext
  have : ∀ (x y : List Char), x.map Char.toNat = y.map Char.toNat → x = y := by
    intro x
    induction x with
    | nil => intro y hy; cases y with
      | nil => rfl
      | cons _ _ => simp at hy
    | cons c t ih =>
      intro y hy
      cases y with
      | nil => simp at hy
      | cons d u =>
        simp only [List.map_cons, List.cons.injEq] at hy
        have hc : c = d := Char.ext (UInt32.ext hy.1)
        rw [hc, ih u hy.2]
  exact this a.data b.data h

theorem strLt_connex : ∀ a b : String, strLt a b = false → strLt b a = false →
    a = b := fun _ _ h1 h2 => codesOf_inj (lexLtN_connex h1 h2)

theorem strLt_irrefl (a : String) : strLt a a = false := lexLtN_irrefl _

theorem natLt_trans : ∀ a b c : Nat, natLt a b = true → natLt b c = true →
    natLt a c = true := by
  intro a b c h1 h2
  simp only [natLt, decide_eq_true_eq] at h1 h2 ⊢
  exact Nat.lt_trans h1 h2

theorem natLt_connex : ∀ a b : Nat, natLt a b = false → natLt b a = false → a = b := by
  intro a b h1 h2
  simp only [natLt, decide_eq_false_iff_not] at h1 h2
  exact Nat.le_antisymm (Nat.le_of_not_lt h2) (Nat.le_of_not_lt h1)

theorem natLt_irrefl (a : Nat) : natLt a a = false := by
  simp [natLt]

/-! ### Lemmas about `sortUniq` -/

theorem mem_insUniq {α : Type} [DecidableEq α] (lt : α → α → Bool) (a x : α) :
    ∀ l : List α, x ∈ insUniq lt a l ↔ x = a ∨ x ∈ l
  | [] => by simp [insUniq]
  | b :: t => by
    have him : insUniq lt a (b :: t) =
        if lt a b then a :: b :: t else if a = b then b :: t else b :: insUniq lt a t := rfl
    by_cases h1 : lt a b = true
    · rw [him, if_pos h1]
      simp [List.mem_cons]
    · rw [him, if_neg h1]
      by_cases h2 : a = b
      · rw [if_pos h2]
        subst h2
        simp only [List.mem_cons]
        tauto
      · rw [if_neg h2]
        simp only [List.mem_cons, mem_insUniq lt a x t]
        tauto

theorem mem_sortUniq {α : Type} [DecidableEq α] (lt : α → α → Bool) (x : α) :
    ∀ l : List α, x ∈ sortUniq lt l ↔ x ∈ l
  | [] => by simp [sortUniq]
  | a :: t => by
    simp [sortUniq, mem_insUniq, mem_sortUniq lt x t]

theorem pairwise_insUniq {α : Type} [DecidableEq α] (lt : α → α → Bool)
    (htr : ∀ x y z : α, lt x y = true → lt y z = true → lt x z = true)
    (hcx : ∀ x y : α, lt x y = false → lt y x = false → x = y) (a : α) :
    ∀ l : List α, l.Pairwise (fun x y => lt x y = true) →
      (insUniq lt a l).Pairwise (fun x y => lt x y = true)
  | [], _ => by simp [insUniq]
  | b :: t, hp => by
    rcases List.pairwise_cons.mp hp with ⟨hb, ht⟩
    have him : insUniq lt a (b :: t) =
        if lt a b then a :: b :: t else if a = b then b :: t else b :: insUniq lt a t := rfl
    by_cases h1 : lt a b = true
    · rw [him, if_pos h1]
      refine List.pairwise_cons.mpr ⟨?_, hp⟩
      intro y hy
      rcases List.mem_cons.mp hy with hy | hy
      · exact hy ▸ h1
      · exact htr a b y h1 (hb y hy)
    · by_cases h2 : a = b
      · rw [him, if_neg h1, if_pos h2]
        exact hp
      · have h1' : lt a b = false := by
          cases h : lt a b
          · rfl
          · exact absurd h h1
        have hba : lt b a = true := by
          cases h : lt b a
          · exact absurd (hcx a b h1' h) h2
          · rfl
        rw [him, if_neg h1, if_neg h2]
        refine List.pairwise_cons.mpr ⟨?_, pairwise_insUniq lt htr hcx a t ht⟩
        intro y hy
        rcases (mem_insUniq lt a y t).mp hy with hy | hy
        · exact hy ▸ hba
        · exact hb y hy

theorem pairwise_sortUniq {α : Type} [DecidableEq α] (lt : α → α → Bool)
    (htr : ∀ x y z : α, lt x y = true → lt y z = true → lt x z = true)
    (hcx : ∀ x y : α, lt x y = false → lt y x = false → x = y) :
    ∀ l : List α, (sortUniq lt l).Pairwise (fun x y => lt x y = true)
  | [] => by simp [sortUniq]
  | a :: t => pairwise_insUniq lt htr hcx a (sortUniq lt t) (pairwise_sortUniq lt htr hcx t)

theorem pairwise_ne_sortUniq {α : Type} [DecidableEq α] (lt : α → α → Bool)
    (htr : ∀ x y z : α, lt x y = true → lt y z = true → lt x z = true)
    (hcx : ∀ x y : α, lt x y = false → lt y x = false → x = y)
    (hir : ∀ x : α, lt x x = false) (l : List α) :
    (sortUniq lt l).Pairwise (fun x y : α => x ≠ y) := by
  refine (pairwise_sortUniq lt htr hcx l).imp ?_
  intro x y hxy heq
  rw [heq, hir y] at hxy
  exact Bool.false_ne_true hxy

end HVDC

namespace HVDC

/-! ### Lemmas about the stable sort -/

theorem sortedRel_total {α : Type} (k : α → List Nat) (x y : Nat × α) :
    sortedRel k x y ∨ sortedRel k y x := by
  unfold sortedRel
  cases h : lexLtN (posKey k y) (posKey k x)
  · exact Or.inl rfl
  · exact Or.inr (lexLtN_asymm h)

theorem sortedRel_trans {α : Type} (k : α → List Nat) (x y z : Nat × α)
    (h1 : sortedRel k x y) (h2 : sortedRel k y z) : sortedRel k x z := by
  unfold sortedRel at h1 h2 ⊢
  cases h : lexLtN (posKey k z) (posKey k x)
  · rfl
  · cases h3 : lexLtN (posKey k x) (posKey k y)
    · have hyx := lexLtN_connex h1 h3
      rw [← hyx] at h
      rw [h2] at h
      exact absurd h Bool.false_ne_true
    · have htr := lexLtN_trans h h3
      rw [h2] at htr
      exact absurd htr Bool.false_ne_true

theorem mem_stableSortKeyed {α : Type} (k : α → List Nat) (l : List α) (x : Nat × α) :
    x ∈ stableSortKeyed k l ↔ x ∈ l.enum :=
  (List.perm_insertionSort (sortedRel k) l.enum).mem_iff

theorem pairwise_stableSortKeyed {α : Type} (k : α → List Nat) (l : List α) :
    (stableSortKeyed k l).Pairwise (sortedRel k) := by
  have htot : IsTotal (Nat × α) (sortedRel k) := ⟨sortedRel_total k⟩
  have htr : IsTrans (Nat × α) (sortedRel k) := ⟨sortedRel_trans k⟩
  exact List.sorted_insertionSort (sortedRel k) l.enum

/-- A pairwise-ordered list puts `a` before `b` whenever the order cannot put
`b` before `a`. -/
theorem pairwise_before {α : Type} {R : α → α → Prop} :
    ∀ {l : List α} {a b : α}, l.Pairwise R → a ∈ l → b ∈ l → ¬R b a → a ≠ b →
      ∃ l₁ l₂ l₃, l = l₁ ++ a :: l₂ ++ b :: l₃ := by
  intro l
  induction l with
  | nil => intro a b _ ha _ _ _; exact absurd ha (List.not_mem_nil a)
  | cons c t ih =>
    intro a b hp ha hb hnba hne
    rcases List.pairwise_cons.mp hp with ⟨hc, ht⟩
    by_cases hac : a = c
    · subst hac
      have hbt : b ∈ t := by
        rcases List.mem_cons.mp hb with h | h
        · exact absurd h.symm hne
        · exact h
      rcases List.append_of_mem hbt with ⟨s, u, hsu⟩
      exact ⟨[], s, u, by rw [hsu]; simp⟩
    · by_cases hbc : b = c
      · subst hbc
        have hat : a ∈ t := by
          rcases List.mem_cons.mp ha with h | h
          · exact absurd h hac
          · exact h
        exact absurd (hc a hat) hnba
      · have hat : a ∈ t := (List.mem_cons.mp ha).resolve_left hac
        have hbt : b ∈ t := (List.mem_cons.mp hb).resolve_left hbc
        rcases ih ht hat hbt hnba hne with ⟨l₁, l₂, l₃, hl⟩
        exact ⟨c :: l₁, l₂, l₃, by rw [hl]; rfl⟩

/-! ### Lemmas about `dedupByKey` -/

theorem mem_of_mem_dedupByKeyAux {α κ : Type} [DecidableEq κ] (key : α → κ) :
    ∀ (seen : List κ) (l : List α) (x : α), x ∈ dedupByKeyAux key seen l → x ∈ l := by
  intro seen l
  induction l generalizing seen with
  | nil => intro x hx; exact absurd hx (List.not_mem_nil x)
  | cons t rest ih =>
    intro x hx
    by_cases h : key t ∈ seen
    · simp only [dedupByKeyAux, if_pos h] at hx
      exact List.mem_cons_of_mem t (ih seen x hx)
    · simp only [dedupByKeyAux, if_neg h] at hx
      rcases List.mem_cons.mp hx with h' | h'
      · exact h' ▸ List.mem_cons_self x rest
      · exact List.mem_cons_of_mem t (ih _ x h')

theorem mem_of_mem_dedupByKey {α κ : Type} [DecidableEq κ] (key : α → κ) (l : List α) (x : α)
    (hx : x ∈ dedupByKey key l) : x ∈ l :=
  mem_of_mem_dedupByKeyAux key [] l x hx

/-! ### Filtering a keyed flatMap recovers one group -/

theorem filter_flatMap_group {α β : Type} [DecidableEq β] (f : β → List α) (key : α → β) :
    ∀ (locs : List β) (b : β), (∀ c ∈ locs, ∀ r ∈ f c, key r = c) →
      locs.Pairwise (fun x y : β => x ≠ y) →
      (locs.flatMap f).filter (fun r => decide (key r = b)) = if b ∈ locs then f b else [] := by
  intro locs
  induction locs with
  | nil => intro b _ _; simp
  | cons c t ih =>
    intro b hk hnd
    rcases List.pairwise_cons.mp hnd with ⟨hct, ht⟩
    have hkc : ∀ r ∈ f c, key r = c := hk c (List.mem_cons_self c t)
    have hkt : ∀ c' ∈ t, ∀ r ∈ f c', key r = c' :=
      fun c' hc' => hk c' (List.mem_cons_of_mem c hc')
    rw [List.flatMap_cons, List.filter_append, ih b hkt ht]
    by_cases hbc : b = c
    · subst hbc
      have hfilter : (f b).filter (fun r => decide (key r = b)) = f b :=
        List.filter_eq_self.mpr (fun r hr => by simp [hkc r hr])
      have hnott : b ∉ t := fun hmem => (hct b hmem) rfl
      rw [hfilter, if_neg hnott, if_pos (List.mem_cons_self b t)]
      simp
    · have hfilter : (f c).filter (fun r => decide (key r = b)) = [] := by
        apply List.filter_eq_nil_iff.mpr
        intro r hr
        rw [hkc r hr]
        simp only [decide_eq_true_eq]
        exact fun h => hbc h.symm
      rw [hfilter]
      by_cases hbt : b ∈ t
      · rw [if_pos hbt, if_pos (List.mem_cons_of_mem c hbt)]
        simp
      · rw [if_neg hbt, if_neg (fun hmem => by
          rcases List.mem_cons.mp hmem with h | h
          · exact hbc h
          · exact hbt h)]
        simp

end HVDC

namespace HVDC

/-! ### Lemmas about `stableSortBy` -/

theorem enumFrom_map_snd {α : Type} : ∀ (n : Nat) (l : List α),
    (List.enumFrom n l).map Prod.snd = l
  | _, [] => rfl
  | n, a :: t => by simp [List.enumFrom, enumFrom_map_snd (n + 1) t]

theorem mem_stableSortBy {α : Type} (k : α → List Nat) (l : List α) (x : α) :
    x ∈ stableSortBy k l ↔ x ∈ l := by
  unfold stableSortBy stableSortKeyed
  rw [((List.perm_insertionSort (sortedRel k) l.enum).map Prod.snd).mem_iff]
  rw [show l.enum = List.enumFrom 0 l from rfl, enumFrom_map_snd]

/-! ### Lemmas about the daily ledger fold -/

theorem rowsFold_map_date (txs : List Tx) (loc : String) :
    ∀ (ds : List Nat) (op : Rat), (rowsFold txs loc ds op).map (·.Date) = ds
  | [], _ => rfl
  | d :: rest, op => by
    simp only [rowsFold, List.map_cons]
    rw [rowsFold_map_date txs loc rest]

theorem rowsFold_props (txs : List Tx) (loc : String) :
    ∀ (ds : List Nat) (op : Rat) (r : StockRow), r ∈ rowsFold txs loc ds op →
      r.Location = loc ∧
      r.Closing_Stock = r.Opening_Stock + r.Inbound - r.Total_Outbound ∧
      r.Total_Outbound = r.Transfer_Out + r.Final_Out ∧
      r.Inbound = sumQtyLDT txs loc r.Date "IN" ∧
      r.Transfer_Out = sumQtyLDT txs loc r.Date "TRANSFER_OUT" ∧
      r.Final_Out = sumQtyLDT txs loc r.Date "FINAL_OUT"
  | [], _, r, hr => absurd hr (List.not_mem_nil r)
  | d :: rest, op, r, hr => by
    simp only [rowsFold] at hr
    rcases List.mem_cons.mp hr with h | h
    · subst h
      exact ⟨rfl, rfl, rfl, rfl, rfl, rfl⟩
    · exact rowsFold_props txs loc rest _ r h

theorem rowsFold_chain (txs : List Tx) (loc : String) :
    ∀ (ds : List Nat) (op : Rat),
      List.Chain' (fun a b : StockRow => b.Opening_Stock = a.Closing_Stock)
        (rowsFold txs loc ds op) ∧
      (∀ r ∈ (rowsFold txs loc ds op).take 1, r.Opening_Stock = op)
  | [], _ => by simp [rowsFold]
  | d :: rest, op => by
    have ih := rowsFold_chain txs loc rest
      (op + sumQtyLDT txs loc d "IN" -
        (sumQtyLDT txs loc d "TRANSFER_OUT" + sumQtyLDT txs loc d "FINAL_OUT"))
    constructor
    · simp only [rowsFold]
      refine List.Chain'.cons' ih.1 ?_
      intro y hy
      have hy1 : y ∈ (rowsFold txs loc rest
          (op + sumQtyLDT txs loc d "IN" -
            (sumQtyLDT txs loc d "TRANSFER_OUT" + sumQtyLDT txs loc d "FINAL_OUT"))).take 1 := by
        cases hc : rowsFold txs loc rest
            (op + sumQtyLDT txs loc d "IN" -
              (sumQtyLDT txs loc d "TRANSFER_OUT" + sumQtyLDT txs loc d "FINAL_OUT")) with
        | nil => rw [hc] at hy; exact absurd hy (by simp)
        | cons r0 rr =>
          rw [hc] at hy
          simp only [List.head?_cons, Option.mem_def, Option.some.injEq] at hy
          simp [hy]
      exact ih.2 y hy1
    · intro r hr
      simp only [rowsFold, List.take_succ_cons, List.take_zero, List.mem_singleton] at hr
      rw [hr]

/-! ### Lemmas about the monthly fold -/

theorem mRowsFold_mem_of_month (txs : List MTx) (loc : String) :
    ∀ (ds : List Nat) (op : Rat) (m : Nat), m ∈ ds →
      ∃ r ∈ mRowsFold txs loc ds op,
        r.Location = loc ∧ r.YearMonth = m ∧
        r.Inbound_Qty = monthSum txs loc m "IN" ∧
        r.Outbound_Qty = monthSum txs loc m "OUT" ∧
        r.Closing_Stock = r.Opening_Stock + r.Inbound_Qty - r.Outbound_Qty
  | [], _, m, hm => absurd hm (List.not_mem_nil m)
  | d :: rest, op, m, hm => by
    rcases List.mem_cons.mp hm with h | h
    · subst h
      refine ⟨_, List.mem_cons_self _ _, rfl, rfl, rfl, rfl, rfl⟩
    · rcases mRowsFold_mem_of_month txs loc rest
        (op + monthSum txs loc d "IN" - monthSum txs loc d "OUT") m h with ⟨r, hr, hps⟩
      exact ⟨r, List.mem_cons_of_mem _ hr, hps⟩

theorem mRowsFold_props (txs : List MTx) (loc : String) :
    ∀ (ds : List Nat) (op : Rat) (r : MStockRow), r ∈ mRowsFold txs loc ds op →
      r.Location = loc ∧
      r.Inbound_Qty = monthSum txs loc r.YearMonth "IN" ∧
      r.Outbound_Qty = monthSum txs loc r.YearMonth "OUT" ∧
      r.Closing_Stock = r.Opening_Stock + r.Inbound_Qty - r.Outbound_Qty
  | [], _, r, hr => absurd hr (List.not_mem_nil r)
  | d :: rest, op, r, hr => by
    simp only [mRowsFold] at hr
    rcases List.mem_cons.mp hr with h | h
    · subst h
      exact ⟨rfl, rfl, rfl, rfl⟩
    · exact mRowsFold_props txs loc rest _ r h

theorem mRowsFold_chain (txs : List MTx) (loc : String) :
    ∀ (ds : List Nat) (op : Rat),
      List.Chain' (fun a b : MStockRow => b.Opening_Stock = a.Closing_Stock)
        (mRowsFold txs loc ds op) ∧
      (∀ r ∈ (mRowsFold txs loc ds op).take 1, r.Opening_Stock = op)
  | [], _ => by simp [mRowsFold]
  | d :: rest, op => by
    have ih := mRowsFold_chain txs loc rest
      (op + monthSum txs loc d "IN" - monthSum txs loc d "OUT")
    constructor
    · simp only [mRowsFold]
      refine List.Chain'.cons' ih.1 ?_
      intro y hy
      have hy1 : y ∈ (mRowsFold txs loc rest
          (op + monthSum txs loc d "IN" - monthSum txs loc d "OUT")).take 1 := by
        cases hc : mRowsFold txs loc rest
            (op + monthSum txs loc d "IN" - monthSum txs loc d "OUT") with
        | nil => rw [hc] at hy; exact absurd hy (by simp)
        | cons r0 rr =>
          rw [hc] at hy
          simp only [List.head?_cons, Option.mem_def, Option.some.injEq] at hy
          simp [hy]
      exact ih.2 y hy1
    · intro r hr
      simp only [mRowsFold, List.take_succ_cons, List.take_zero, List.mem_singleton] at hr
      rw [hr]

/-! ### Lemmas about the validator fold -/

theorem valFold_fst : ∀ (l : List StockRow) (n : Nat) (es : List ValErr),
    (l.foldl valStep (n, es)).1 = n + (l.filter rowViol).length
  | [], n, _ => by simp
  | r :: t, n, es => by
    cases h : rowViol r
    · have : valStep (n, es) r = (n, es) := by simp [valStep, h]
      rw [List.foldl_cons, this, valFold_fst t n es, List.filter_cons, h]
      simp
    · have : valStep (n, es) r =
          (n + 1, es ++ [ValErr.mk r.Location r.Date
            (r.Opening_Stock + r.Inbound - r.Total_Outbound) r.Closing_Stock
            |r.Closing_Stock - (r.Opening_Stock + r.Inbound - r.Total_Outbound)|]) := by
        simp [valStep, h]
      rw [List.foldl_cons, this, valFold_fst t (n + 1) _, List.filter_cons, h]
      simp
      omega

end HVDC

namespace HVDC

/-! ### Lemmas about the classifier output -/

theorem caseTxs_out_kind :
    ∀ (prev : Option LoadEvent) (l : List LoadEvent) (t : Tx), t ∈ caseTxs prev l →
      t.txType = "OUT" →
      (t.refined = "FINAL_OUT" ↔ normalize_site_name (some t.locTo) ≠ "UNK") ∧
      (t.refined = "TRANSFER_OUT" ↔ normalize_site_name (some t.locTo) = "UNK") := by
  intro prev l
  induction l generalizing prev with
  | nil => intro t ht _; cases prev <;> exact absurd ht (List.not_mem_nil t)
  | cons e rest ih =>
    intro t ht hout
    cases prev with
    | none =>
      rcases List.mem_cons.mp ht with h | h
      · rw [h] at hout
        have hin : (mkIn "SOURCE" e).txType = "IN" := rfl
        rw [hin] at hout
        exact absurd hout (by decide)
      · exact ih (some e) t h hout
    | some p =>
      rcases List.mem_cons.mp ht with h | h
      · rw [h] at hout
        have hin : (mkIn p.location e).txType = "IN" := rfl
        rw [hin] at hout
        exact absurd hout (by decide)
      · rcases List.mem_cons.mp h with h' | h'
        · subst h'
          by_cases hs : normalize_site_name (some e.location) = "UNK"
          · have href : (mkOut p e).refined = "TRANSFER_OUT" := by
              simp [mkOut, hs]
            have hto : (mkOut p e).locTo = e.location := rfl
            rw [href, hto]
            constructor
            · constructor
              · intro hx; exact absurd hx (by decide)
              · intro hx; exact absurd hs hx
            · constructor
              · intro _; exact hs
              · intro _; rfl
          · have href : (mkOut p e).refined = "FINAL_OUT" := by
              simp [mkOut, hs]
            have hto : (mkOut p e).locTo = e.location := rfl
            rw [href, hto]
            constructor
            · constructor
              · intro _; exact hs
              · intro _; rfl
            · constructor
              · intro hx; exact absurd hx (by decide)
              · intro hx; exact absurd hx hs
        · exact ih (some e) t h' hout

theorem create_transaction_log_sub (raw : List LoadEvent) (t : Tx)
    (ht : t ∈ create_transaction_log raw) :
    ∃ c ∈ sortUniq strLt ((sortEvents raw).map (·.caseNo)),
      t ∈ caseTxs none ((sortEvents raw).filter (fun e => decide (e.caseNo = c))) := by
  unfold create_transaction_log at ht
  have ht' := mem_of_mem_dedupByKey txId _ t ht
  exact List.mem_flatMap.mp ht'

/-! ### Lemmas about the loader row -/

theorem processWarehouseRow_qty (idx : Nat) (caseCell : Option String) (qtyCell : Cell)
    (dateCols : List (String × Option Nat)) (sourceFile : String) (e : LoadEvent)
    (he : e ∈ processWarehouseRow idx caseCell qtyCell dateCols sourceFile) :
    e.qty = hvdcQty qtyCell := by
  unfold processWarehouseRow at he
  rw [mem_stableSortBy] at he
  rcases List.mem_filterMap.mp he with ⟨cd, _, hsome⟩
  rcases hd : cd.2 with _ | d
  · rw [hd] at hsome
    exact absurd hsome (by simp)
  · rw [hd] at hsome
    dsimp only at hsome
    by_cases hu : extract_warehouse_from_column_name cd.1 = "UNKNOWN"
    · rw [if_pos hu] at hsome
      exact absurd hsome (by simp)
    · rw [if_neg hu] at hsome
      have he' := Option.some.inj hsome
      rw [← he']

/-! ### Stability of the event sort -/

theorem sortEventsK_stable (evts : List LoadEvent) (i j : Nat)
    (hi : i < evts.length) (hj : j < evts.length) (hij : i < j)
    (hc : evts[i].caseNo = evts[j].caseNo) (hd : evts[i].date = evts[j].date) :
    ∃ l₁ l₂ l₃, sortEventsK evts = l₁ ++ (i, evts[i]) :: l₂ ++ (j, evts[j]) :: l₃ := by
  have hmi : (i, evts[i]) ∈ sortEventsK evts := by
    rw [show sortEventsK evts = stableSortKeyed evKey evts from rfl,
      mem_stableSortKeyed, List.mem_enum_iff_getElem?]
    exact List.getElem?_eq_getElem hi
  have hmj : (j, evts[j]) ∈ sortEventsK evts := by
    rw [show sortEventsK evts = stableSortKeyed evKey evts from rfl,
      mem_stableSortKeyed, List.mem_enum_iff_getElem?]
    exact List.getElem?_eq_getElem hj
  have hkey : evKey evts[i] = evKey evts[j] := by
    unfold evKey
    rw [hc, hd]
  have hlt : lexLtN (posKey evKey (i, evts[i])) (posKey evKey (j, evts[j])) = true := by
    unfold posKey
    simp only
    rw [hkey]
    exact lexLtN_append_lt _ hij
  have hnR : ¬sortedRel evKey (j, evts[j]) (i, evts[i]) := by
    unfold sortedRel
    rw [hlt]
    simp
  have hne : (i, evts[i]) ≠ (j, evts[j]) := by
    intro hcontra
    have : i = j := congrArg Prod.fst hcontra
    omega
  exact pairwise_before (pairwise_stableSortKeyed evKey evts) hmi hmj hnR hne

end HVDC

namespace HVDC

/-! ## Claim theorems -/

/-- C7 counterexample: the empty string is not null under `pd.isna`, matches
no `LOC_MAP` rule, and is therefore returned verbatim as the empty string by
`map_loc`, not coerced to UNKNOWN as the claim states for empty input. -/
theorem C7_counterexample :
    map_loc (some "") ≠ "UNKNOWN" ∧ map_loc (some "") = "" := by
  constructor
  · decide
  · rfl

/-- C7 (amended): `map_loc` applies the ordered `LOC_MAP` rules, the first
full-string case-insensitive match wins, an unmatched input is returned
stripped of surrounding whitespace but otherwise verbatim, a missing (null)
input yields UNKNOWN, and the empty string matches no rule and is returned
as the empty string rather than UNKNOWN. -/
theorem C7_map_loc_amended :
    map_loc none = "UNKNOWN" ∧
    map_loc (some "M44-BAY07") = "DSV Indoor" ∧
    map_loc (some "UNLISTED-ZONE") = "UNLISTED-ZONE" ∧
    map_loc (some "") = "" ∧
    (∀ s : String, findFirstPat LOC_MAP (pyStrip s) = none →
      map_loc (some s) = pyStrip s) ∧
    (∀ (s canon : String), findFirstPat LOC_MAP (pyStrip s) = some canon →
      map_loc (some s) = canon) := by
  refine ⟨rfl, by decide, by decide, rfl, ?_, ?_⟩
  · intro s hs
    have hm : map_loc (some s) =
        (match findFirstPat LOC_MAP (pyStrip s) with
          | some canon => canon
          | none => pyStrip s) := rfl
    rw [hm, hs]
  · intro s canon hs
    have hm : map_loc (some s) =
        (match findFirstPat LOC_MAP (pyStrip s) with
          | some canon => canon
          | none => pyStrip s) := rfl
    rw [hm, hs]

/-- C7 witness: the no-match branch of the amended claim evaluated at the
concrete unmatched input. -/
theorem C7_map_loc_amended_witness :
    map_loc (some "UNLISTED-ZONE") = pyStrip "UNLISTED-ZONE" :=
  C7_map_loc_amended.2.2.2.2.1 "UNLISTED-ZONE" (by decide)

/-- C8 counterexample: a present but non-numeric quantity cell parses to NaN
under `pd.to_numeric(..., errors=coerce)`, and Python `NaN or 1` keeps the
NaN because NaN is truthy; the emitted movement event carries quantity NaN
(`none`), not the claimed default 1. -/
theorem C8_counterexample :
    (processWarehouseRow 0 (some "C1") (Cell.str "N/A")
        [("DSV Indoor", some 86400)] "f.xlsx").map (fun e => e.qty) = [none] ∧
    hvdcQty (Cell.str "N/A") ≠ some 1 := by
  constructor
  · decide
  · decide

/-- C8 (amended): in the hvdc loader the quantity is
`pd.to_numeric(row.get(qty_col, 1), errors=coerce) or 1`: a missing quantity
column or a cell parsing to 0 yields 1, but a present cell whose parse is NaN
(missing or non-numeric value) yields NaN, since NaN is truthy under Python
`or`; in the part_000 extractor the raw cell value is used unparsed when it
is present and non-null, else 1; every emitted loader event carries exactly
this resolved quantity. -/
theorem C8_quantity_amended :
    (∀ c : Cell, to_numeric (rowGetQty c) = none → hvdcQty c = none) ∧
    (∀ c : Cell, to_numeric (rowGetQty c) = some 0 → hvdcQty c = some 1) ∧
    (∀ (c : Cell) (q : Rat), q ≠ 0 → to_numeric (rowGetQty c) = some q →
      hvdcQty c = some q) ∧
    part000Qty Cell.absent = Cell.num 1 ∧
    part000Qty Cell.nan = Cell.num 1 ∧
    (∀ c : Cell, c ≠ Cell.absent → c ≠ Cell.nan → part000Qty c = c) ∧
    (∀ (idx : Nat) (cc : Option String) (qc : Cell) (cols : List (String × Option Nat))
      (src : String) (e : LoadEvent),
      e ∈ processWarehouseRow idx cc qc cols src → e.qty = hvdcQty qc) := by
  refine ⟨?_, ?_, ?_, rfl, rfl, ?_, ?_⟩
  · intro c h
    unfold hvdcQty
    rw [h]
    rfl
  · intro c h
    unfold hvdcQty
    rw [h]
    simp [orOne]
  · intro c q hq h
    unfold hvdcQty
    rw [h]
    simp [orOne, hq]
  · intro c h1 h2
    cases c with
    | absent => exact absurd rfl h1
    | nan => exact absurd rfl h2
    | num q => rfl
    | str s => rfl
  · exact fun idx cc qc cols src e he => processWarehouseRow_qty idx cc qc cols src e he

/-- C8 witness: the NaN branch of the amended claim at a concrete blank cell. -/
theorem C8_quantity_amended_witness : hvdcQty Cell.nan = none :=
  C8_quantity_amended.1 Cell.nan (by decide)

/-- C10: a quantity cell whose numeric parse is exactly 0 is coalesced to 1
by Python `0 or 1` (0 is falsy), so every event of the row carries quantity
1 and never 0; a missing quantity column is coalesced to the same value 1. -/
theorem C10_zero_qty_coalesced :
    (∀ c : Cell, to_numeric (rowGetQty c) = some 0 →
      hvdcQty c = some 1 ∧ hvdcQty c ≠ some 0) ∧
    hvdcQty Cell.absent = some 1 ∧
    (∀ (idx : Nat) (cc : Option String) (cols : List (String × Option Nat))
      (src : String) (c : Cell) (e : LoadEvent),
      to_numeric (rowGetQty c) = some 0 →
      e ∈ processWarehouseRow idx cc c cols src → e.qty = some 1) := by
  refine ⟨?_, by decide, ?_⟩
  · intro c h
    have h1 : hvdcQty c = some 1 := by
      unfold hvdcQty
      rw [h]
      simp [orOne]
    refine ⟨h1, ?_⟩
    rw [h1]
    simp
  · intro idx cc cols src c e h he
    have hq := processWarehouseRow_qty idx cc c cols src e he
    rw [hq]
    unfold hvdcQty
    rw [h]
    simp [orOne]

/-- C10 witness: the zero-cell branch at the concrete cell 0. -/
theorem C10_zero_qty_coalesced_witness :
    hvdcQty (Cell.num 0) = some 1 ∧ hvdcQty (Cell.num 0) ≠ some 0 :=
  C10_zero_qty_coalesced.1 (Cell.num 0) (by decide)

end HVDC

namespace HVDC

/-- C3: every EXIT transaction of the classifier output has kind FINAL_OUT
exactly when the exit counterparty (the destination `Loc_To` of the move)
canonicalizes to a known delivery site under `normalize_site_name`, and kind
TRANSFER_OUT exactly otherwise. -/
theorem C3_final_out_iff_site (raw : List LoadEvent) (t : Tx)
    (ht : t ∈ create_transaction_log raw) (hout : t.txType = "OUT") :
    (t.refined = "FINAL_OUT" ↔ normalize_site_name (some t.locTo) ≠ "UNK") ∧
    (t.refined = "TRANSFER_OUT" ↔ normalize_site_name (some t.locTo) = "UNK") := by
  rcases create_transaction_log_sub raw t ht with ⟨c, _, hmem⟩
  exact caseTxs_out_kind none _ t hmem hout

/-- C3 witness: the theorem applied to the transfer exit of a concrete
two-event case history. -/
theorem C3_final_out_iff_site_witness :
    ((Tx.mk "C" 172800 (some 1) "OUT" "TRANSFER_OUT" "DSV Indoor" "DSV Outdoor"
        "DSV Indoor" "UNK" "f").refined = "FINAL_OUT" ↔
      normalize_site_name (some (Tx.mk "C" 172800 (some 1) "OUT" "TRANSFER_OUT"
        "DSV Indoor" "DSV Outdoor" "DSV Indoor" "UNK" "f").locTo) ≠ "UNK") ∧
    ((Tx.mk "C" 172800 (some 1) "OUT" "TRANSFER_OUT" "DSV Indoor" "DSV Outdoor"
        "DSV Indoor" "UNK" "f").refined = "TRANSFER_OUT" ↔
      normalize_site_name (some (Tx.mk "C" 172800 (some 1) "OUT" "TRANSFER_OUT"
        "DSV Indoor" "DSV Outdoor" "DSV Indoor" "UNK" "f").locTo) = "UNK") :=
  C3_final_out_iff_site
    [LoadEvent.mk "C" 86400 (some 1) "DSV Indoor" "a" "f",
     LoadEvent.mk "C" 172800 (some 1) "DSV Outdoor" "b" "f"]
    (Tx.mk "C" 172800 (some 1) "OUT" "TRANSFER_OUT" "DSV Indoor" "DSV Outdoor"
      "DSV Indoor" "UNK" "f")
    (by decide) (by decide)

/-- C4: the classifier event sort is by (case, timestamp) with ties broken by
original extraction position: two events of the same case at the identical
timestamp come out in source order, the sorted sequence is the one the
classifier consumes, and classifying the same input twice gives identical
output. -/
theorem C4_stable_sort_deterministic :
    (∀ (evts : List LoadEvent) (i j : Nat) (hi : i < evts.length) (hj : j < evts.length),
      i < j → evts[i].caseNo = evts[j].caseNo → evts[i].date = evts[j].date →
      ∃ l₁ l₂ l₃, sortEventsK evts = l₁ ++ (i, evts[i]) :: l₂ ++ (j, evts[j]) :: l₃) ∧
    (∀ evts : List LoadEvent, sortEvents evts = (sortEventsK evts).map (fun x => x.2)) ∧
    (∀ evts : List LoadEvent, create_transaction_log evts = create_transaction_log evts) :=
  ⟨fun evts i j hi hj hij hc hd => sortEventsK_stable evts i j hi hj hij hc hd,
   fun _ => rfl, fun _ => rfl⟩

/-- C4 witness: the stability branch applied to two concrete events of the
same case at the identical timestamp. -/
theorem C4_stable_sort_deterministic_witness :
    ∃ l₁ l₂ l₃,
      sortEventsK [LoadEvent.mk "C" 86400 (some 1) "DSV Indoor" "a" "f",
        LoadEvent.mk "C" 86400 (some 2) "DSV Outdoor" "b" "f"] =
      l₁ ++ (0, LoadEvent.mk "C" 86400 (some 1) "DSV Indoor" "a" "f") ::
        l₂ ++ (1, LoadEvent.mk "C" 86400 (some 2) "DSV Outdoor" "b" "f") :: l₃ :=
  C4_stable_sort_deterministic.1
    [LoadEvent.mk "C" 86400 (some 1) "DSV Indoor" "a" "f",
     LoadEvent.mk "C" 86400 (some 2) "DSV Outdoor" "b" "f"]
    0 1 (by decide) (by decide) (by decide) (by decide) (by decide)

end HVDC

namespace HVDC

/-- C1: every row of the daily stock ledger satisfies the balance identity
closing = opening + inbound - (transfer out + final out) exactly, hence
within the 0.01 tolerance; the validator counts an error for exactly the
rows violating the identity beyond the tolerance, and fails exactly when
one exists. -/
theorem C1_balance_and_validator :
    (∀ (txs : List Tx) (r : StockRow), r ∈ calculate_daily_stock txs →
      r.Closing_Stock = r.Opening_Stock + r.Inbound - r.Total_Outbound ∧
      r.Total_Outbound = r.Transfer_Out + r.Final_Out ∧
      |r.Closing_Stock - (r.Opening_Stock + r.Inbound - r.Total_Outbound)| ≤ 1 / 100) ∧
    (∀ rows : List StockRow,
      (validate_stock_integrity rows).errors = (rows.filter rowViol).length ∧
      ((validate_stock_integrity rows).status = "FAIL" ↔ ∃ r ∈ rows, rowViol r = true)) := by
  constructor
  · intro txs r hr
    rcases List.mem_flatMap.mp hr with ⟨loc, _, hmem⟩
    rcases rowsFold_props txs loc _ _ r hmem with ⟨_, hclose, htot, _⟩
    refine ⟨hclose, htot, ?_⟩
    rw [hclose, sub_self, abs_zero]
    norm_num
  · intro rows
    by_cases hemp : rows.isEmpty
    · have hnil : rows = [] := by
        cases rows
        · rfl
        · exact absurd hemp (by simp)
      subst hnil
      constructor
      · rfl
      · constructor
        · intro h
          exact absurd h (by decide)
        · intro h
          rcases h with ⟨r, hr, _⟩
          exact absurd hr (List.not_mem_nil r)
    · have hval : validate_stock_integrity rows =
          (if (rows.foldl valStep (0, [])).1 = 0 then ValResult.mk "PASS" 0 []
           else ValResult.mk "FAIL" (rows.foldl valStep (0, [])).1
             ((rows.foldl valStep (0, [])).2.take 10)) := by
        unfold validate_stock_integrity
        rw [if_neg (by simpa using hemp)]
      have hc := valFold_fst rows 0 []
      rw [Nat.zero_add] at hc
      by_cases hz : (rows.foldl valStep (0, [])).1 = 0
      · rw [hval, if_pos hz]
        have hcount : (rows.filter rowViol).length = 0 := by omega
      
        constructor
        · simpa using hcount.symm
        · constructor
          · intro h
            exact absurd h (by decide)
          · intro h
            rcases h with ⟨r, hr, hv⟩
            have : r ∈ rows.filter rowViol := List.mem_filter.mpr ⟨hr, hv⟩
            rw [List.length_eq_zero.mp hcount] at this
            exact absurd this (List.not_mem_nil r)
      · rw [hval, if_neg hz]
        constructor
        · simpa using hc
        · constructor
          · intro _
            have hcount : (rows.filter rowViol).length ≠ 0 := by omega
            have hne : rows.filter rowViol ≠ [] := by
              intro hcontra
              rw [hcontra] at hcount
              exact hcount rfl
            rcases List.exists_mem_of_ne_nil _ hne with ⟨r, hr⟩
            rcases List.mem_filter.mp hr with ⟨hmem, hv⟩
            exact ⟨r, hmem, hv⟩
          · intro _
            rfl

/-- C1 witness: the balance identity of the theorem at the single ledger row
of a concrete one-transaction input. -/
theorem C1_balance_and_validator_witness :
    (StockRow.mk "DSV Indoor" 1 0 5 0 0 0 5).Closing_Stock =
      (StockRow.mk "DSV Indoor" 1 0 5 0 0 0 5).Opening_Stock +
      (StockRow.mk "DSV Indoor" 1 0 5 0 0 0 5).Inbound -
      (StockRow.mk "DSV Indoor" 1 0 5 0 0 0 5).Total_Outbound ∧
    (StockRow.mk "DSV Indoor" 1 0 5 0 0 0 5).Total_Outbound =
      (StockRow.mk "DSV Indoor" 1 0 5 0 0 0 5).Transfer_Out +
      (StockRow.mk "DSV Indoor" 1 0 5 0 0 0 5).Final_Out ∧
    |(StockRow.mk "DSV Indoor" 1 0 5 0 0 0 5).Closing_Stock -
      ((StockRow.mk "DSV Indoor" 1 0 5 0 0 0 5).Opening_Stock +
       (StockRow.mk "DSV Indoor" 1 0 5 0 0 0 5).Inbound -
       (StockRow.mk "DSV Indoor" 1 0 5 0 0 0 5).Total_Outbound)| ≤ 1 / 100 :=
  C1_balance_and_validator.1
    [Tx.mk "C" 86400 (some 5) "IN" "IN" "SOURCE" "DSV Indoor" "DSV Indoor" "UNK" "f"]
    (StockRow.mk "DSV Indoor" 1 0 5 0 0 0 5)
    (by simp [calculate_daily_stock, stockLocs, sortUniq, insUniq, strLt, codesOf, lexLtN,
      locDates, natLt, rowsFold, sumQtyLDT, dateOf])

/-- C2: in the daily ledger the first row of every location has opening
stock 0, and every chronologically adjacent pair of rows of the same
location carries the closing stock into the next opening exactly. -/
theorem C2_opening_continuity (txs : List Tx) (l : String) :
    (∀ r ∈ ((calculate_daily_stock txs).filter
        (fun r => decide (r.Location = l))).take 1,
      r.Opening_Stock = 0) ∧
    List.Chain' (fun a b : StockRow => b.Opening_Stock = a.Closing_Stock)
      ((calculate_daily_stock txs).filter (fun r => decide (r.Location = l))) := by
  have hfilter : (calculate_daily_stock txs).filter (fun r => decide (r.Location = l)) =
      if l ∈ stockLocs txs then rowsFold txs l (locDates txs l) 0 else [] := by
    unfold calculate_daily_stock
    exact filter_flatMap_group (fun c => rowsFold txs c (locDates txs c) 0)
      (fun r => r.Location) (stockLocs txs) l
      (fun c _ r hr => (rowsFold_props txs c _ _ r hr).1)
      ((pairwise_ne_sortUniq strLt strLt_trans strLt_connex strLt_irrefl _).filter _)
  rw [hfilter]
  by_cases hl : l ∈ stockLocs txs
  · rw [if_pos hl]
    exact ⟨(rowsFold_chain txs l (locDates txs l) 0).2, (rowsFold_chain txs l _ 0).1⟩
  · rw [if_neg hl]
    exact ⟨fun r hr => absurd hr (by simp), List.chain'_nil⟩

/-- C2 witness: the first-row-opening branch at a concrete input, plus the
continuity chain of the same concrete ledger. -/
theorem C2_opening_continuity_witness :
    (StockRow.mk "DSV Indoor" 1 0 5 0 0 0 5).Opening_Stock = 0 ∧
    List.Chain' (fun a b : StockRow => b.Opening_Stock = a.Closing_Stock)
      ((calculate_daily_stock
        [Tx.mk "C" 86400 (some 5) "IN" "IN" "SOURCE" "DSV Indoor" "DSV Indoor" "UNK" "f",
         Tx.mk "D" 259200 (some 2) "IN" "IN" "SOURCE" "DSV Indoor" "DSV Indoor" "UNK" "f"]).filter
        (fun r => decide (r.Location = "DSV Indoor"))) :=
  ⟨(C2_opening_continuity
      [Tx.mk "C" 86400 (some 5) "IN" "IN" "SOURCE" "DSV Indoor" "DSV Indoor" "UNK" "f"]
      "DSV Indoor").1
    (StockRow.mk "DSV Indoor" 1 0 5 0 0 0 5)
    (by simp [calculate_daily_stock, stockLocs, sortUniq, insUniq, strLt, codesOf, lexLtN,
      locDates, natLt, rowsFold, sumQtyLDT, dateOf]),
   (C2_opening_continuity
      [Tx.mk "C" 86400 (some 5) "IN" "IN" "SOURCE" "DSV Indoor" "DSV Indoor" "UNK" "f",
       Tx.mk "D" 259200 (some 2) "IN" "IN" "SOURCE" "DSV Indoor" "DSV Indoor" "UNK" "f"]
      "DSV Indoor").2⟩

end HVDC

namespace HVDC

/-- C5 counterexample: with activity at one location on days 1 and 3 only,
the daily ledger of `calculate_daily_stock` has rows for days 1 and 3 but no
row for the zero-activity day 2 lying between the first and last active day,
contradicting the claim that such periods still appear. -/
theorem C5_counterexample :
    (calculate_daily_stock
      [Tx.mk "C" 86400 (some 1) "IN" "IN" "SOURCE" "DSV Indoor" "DSV Indoor" "UNK" "f",
       Tx.mk "D" 259200 (some 1) "IN" "IN" "SOURCE" "DSV Indoor" "DSV Indoor" "UNK" "f"]).map
      (fun r => (r.Location, r.Date)) = [("DSV Indoor", 1), ("DSV Indoor", 3)] ∧
    ¬(2 ∈ (calculate_daily_stock
      [Tx.mk "C" 86400 (some 1) "IN" "IN" "SOURCE" "DSV Indoor" "DSV Indoor" "UNK" "f",
       Tx.mk "D" 259200 (some 1) "IN" "IN" "SOURCE" "DSV Indoor" "DSV Indoor" "UNK" "f"]).map
      (fun r => r.Date)) := by
  constructor
  · decide
  · decide

/-- C5 (amended): the daily ledger emits a row only for days on which the
location has at least one transaction (opening is still carried across the
gap), while the monthly warehouse analysis emits, for every location other
than UNKNOWN, one row for every month of the global month range, its inbound
and outbound being the (possibly zero) monthly aggregates, with opening
carried from the prior closing along the whole range. -/
theorem C5_gap_semantics :
    (∀ (txs : List Tx) (r : StockRow), r ∈ calculate_daily_stock txs →
      ∃ t ∈ txs, t.location = r.Location ∧ dateOf t.date = r.Date) ∧
    (∀ (rows : List MRow) (l : String) (m : Nat),
      l ∈ monthlyLocs (normalizeMTx rows) → l ≠ "UNKNOWN" →
      m ∈ monthlyMonths (normalizeMTx rows) →
      ∃ r ∈ create_proper_monthly_stock rows,
        r.Location = l ∧ r.YearMonth = m ∧
        r.Inbound_Qty = monthSum (normalizeMTx rows) l m "IN" ∧
        r.Outbound_Qty = monthSum (normalizeMTx rows) l m "OUT" ∧
        r.Closing_Stock = r.Opening_Stock + r.Inbound_Qty - r.Outbound_Qty) ∧
    (∀ (rows : List MRow) (l : String),
      List.Chain' (fun a b : MStockRow => b.Opening_Stock = a.Closing_Stock)
        ((create_proper_monthly_stock rows).filter (fun r => decide (r.Location = l)))) := by
  refine ⟨?_, ?_, ?_⟩
  · intro txs r hr
    rcases List.mem_flatMap.mp hr with ⟨loc, _, hmem⟩
    have hloc : r.Location = loc := (rowsFold_props txs loc _ _ r hmem).1
    have hdate : r.Date ∈ locDates txs loc := by
      have h1 : r.Date ∈ (rowsFold txs loc (locDates txs loc) 0).map
          (fun x => x.Date) := List.mem_map_of_mem _ hmem
      rwa [rowsFold_map_date] at h1
    unfold locDates at hdate
    rw [mem_sortUniq] at hdate
    rcases List.mem_map.mp hdate with ⟨t, htf, ht⟩
    rcases List.mem_filter.mp htf with ⟨htx, hpl⟩
    refine ⟨t, htx, ?_, ht⟩
    rw [hloc]
    exact of_decide_eq_true hpl
  · intro rows l m hl hne hm
    unfold create_proper_monthly_stock
    rcases mRowsFold_mem_of_month (normalizeMTx rows) l (monthlyMonths (normalizeMTx rows))
      0 m hm with ⟨r, hr, hp1, hp2, hp3, hp4, hp5⟩
    refine ⟨r, List.mem_flatMap.mpr ⟨l, hl, ?_⟩, hp1, hp2, hp3, hp4, hp5⟩
    rw [if_neg hne]
    exact hr
  · intro rows l
    have hfilter : (create_proper_monthly_stock rows).filter
        (fun r => decide (r.Location = l)) =
        if l ∈ monthlyLocs (normalizeMTx rows) then
          (if l = "UNKNOWN" then [] else
            mRowsFold (normalizeMTx rows) l (monthlyMonths (normalizeMTx rows)) 0)
        else [] := by
      unfold create_proper_monthly_stock
      refine filter_flatMap_group
        (fun c => if c = "UNKNOWN" then [] else
          mRowsFold (normalizeMTx rows) c (monthlyMonths (normalizeMTx rows)) 0)
        (fun r : MStockRow => r.Location) (monthlyLocs (normalizeMTx rows)) l ?_ ?_
      · intro c _ r hr
        dsimp only at hr ⊢
        by_cases hcu : c = "UNKNOWN"
        · rw [if_pos hcu] at hr
          exact absurd hr (List.not_mem_nil r)
        · rw [if_neg hcu] at hr
          exact (mRowsFold_props (normalizeMTx rows) c _ _ r hr).1
      · exact pairwise_ne_sortUniq strLt strLt_trans strLt_connex strLt_irrefl _
    rw [hfilter]
    by_cases hl : l ∈ monthlyLocs (normalizeMTx rows)
    · rw [if_pos hl]
      by_cases hlu : l = "UNKNOWN"
      · rw [if_pos hlu]
        exact List.chain'_nil
      · rw [if_neg hlu]
        exact (mRowsFold_chain (normalizeMTx rows) l _ 0).1
    · rw [if_neg hl]
      exact List.chain'_nil

/-- C5 witness: the monthly-coverage branch of the amended claim at a
concrete two-month input, instantiated at the zero-activity combination of
the second location and the first month. -/
theorem C5_gap_semantics_witness :
    ∃ r ∈ create_proper_monthly_stock
        [MRow.mk "C" 0 (some "DSV Indoor") none none "IN" 1 0,
         MRow.mk "D" 1 (some "MOSB") none none "IN" 2 0],
      r.Location = "MOSB" ∧ r.YearMonth = 0 ∧
      r.Inbound_Qty = monthSum (normalizeMTx
        [MRow.mk "C" 0 (some "DSV Indoor") none none "IN" 1 0,
         MRow.mk "D" 1 (some "MOSB") none none "IN" 2 0]) "MOSB" 0 "IN" ∧
      r.Outbound_Qty = monthSum (normalizeMTx
        [MRow.mk "C" 0 (some "DSV Indoor") none none "IN" 1 0,
         MRow.mk "D" 1 (some "MOSB") none none "IN" 2 0]) "MOSB" 0 "OUT" ∧
      r.Closing_Stock = r.Opening_Stock + r.Inbound_Qty - r.Outbound_Qty :=
  C5_gap_semantics.2.1
    [MRow.mk "C" 0 (some "DSV Indoor") none none "IN" 1 0,
     MRow.mk "D" 1 (some "MOSB") none none "IN" 2 0]
    "MOSB" 0 (by decide) (by decide) (by decide)

end HVDC

namespace HVDC

/-- C6 counterexample: with a non-empty ledger and an empty snapshot,
`reconcile` returns the empty frame via its early-exit guard, so the ledger
location DSV Indoor is dropped instead of being retained with the snapshot
side filled as 0 as the claim requires. -/
theorem C6_counterexample :
    reconcile [DailyRow.mk "DSV Indoor" 0 7] [] = [] ∧
    "DSV Indoor" ∈ ([DailyRow.mk "DSV Indoor" 0 7].map (fun r => r.Loc)) := by
  constructor
  · rfl
  · decide

/-- C6 (amended): when both the ledger and the snapshot are non-empty,
reconciliation produces exactly one record per location of the union of the
two sides (a location missing on one side keeps 0 for that side), with
delta = snapshot quantity minus last ledger closing, status OK exactly when
the absolute delta is at most 5 and ATTENTION otherwise, and severity HIGH
above 10, MEDIUM between 5 exclusive and 10 inclusive, LOW at 5 or below;
when either input is empty the output is empty and nothing is retained. -/
theorem C6_reconcile_amended (daily : List DailyRow) (snap : List OnhandRow)
    (hd : daily ≠ []) (hs : snap ≠ []) :
    (∀ l : String, (∃ rec ∈ reconcile daily snap, rec.Loc = l) ↔
      (l ∈ daily.map (fun r => r.Loc) ∨ l ∈ snap.map (fun r => r.Loc_To))) ∧
    ((reconcile daily snap).map (fun rec => rec.Loc)).Pairwise
      (fun x y : String => x ≠ y) ∧
    (∀ rec ∈ reconcile daily snap,
      rec.Tx_Closing = (lastClosing daily rec.Loc).getD 0 ∧
      rec.OnHand_Qty = snapSum snap rec.Loc ∧
      rec.delta = rec.OnHand_Qty - rec.Tx_Closing ∧
      (rec.Status = "OK" ↔ |rec.delta| ≤ 5) ∧
      (rec.Status = "ATTENTION" ↔ 5 < |rec.delta|) ∧
      (rec.Alert_Level = "HIGH" ↔ 10 < |rec.delta|) ∧
      (rec.Alert_Level = "MEDIUM" ↔ (5 < |rec.delta| ∧ |rec.delta| ≤ 10)) ∧
      (rec.Alert_Level = "LOW" ↔ |rec.delta| ≤ 5)) := by
  have hrec : reconcile daily snap =
      (sortUniq strLt (daily.map (fun r => r.Loc) ++ snap.map (fun r => r.Loc_To))).map
        (fun l =>
          ReconRec.mk l ((lastClosing daily l).getD 0) (snapSum snap l)
            (snapSum snap l - (lastClosing daily l).getD 0)
            (if |snapSum snap l - (lastClosing daily l).getD 0| ≤ 5 then "OK"
             else "ATTENTION")
            (if 10 < |snapSum snap l - (lastClosing daily l).getD 0| then "HIGH"
             else if 5 < |snapSum snap l - (lastClosing daily l).getD 0| then "MEDIUM"
             else "LOW")) := by
    unfold reconcile
    rw [if_neg (by simp [hd, hs])]
  refine ⟨?_, ?_, ?_⟩
  · intro l
    rw [hrec]
    constructor
    · intro h
      rcases h with ⟨rec, hmem, hloc⟩
      rcases List.mem_map.mp hmem with ⟨l', hl', heq⟩
      have : l' = l := by rw [← hloc, ← heq]
      subst this
      rw [mem_sortUniq] at hl'
      exact List.mem_append.mp hl'
    · intro h
      refine ⟨_, List.mem_map_of_mem _ ((mem_sortUniq strLt l _).mpr
        (List.mem_append.mpr h)), rfl⟩
  · rw [hrec, List.map_map]
    have hid : ((fun rec : ReconRec => rec.Loc) ∘ (fun l =>
        ReconRec.mk l ((lastClosing daily l).getD 0) (snapSum snap l)
          (snapSum snap l - (lastClosing daily l).getD 0)
          (if |snapSum snap l - (lastClosing daily l).getD 0| ≤ 5 then "OK"
           else "ATTENTION")
          (if 10 < |snapSum snap l - (lastClosing daily l).getD 0| then "HIGH"
           else if 5 < |snapSum snap l - (lastClosing daily l).getD 0| then "MEDIUM"
           else "LOW"))) = id := rfl
    rw [hid, List.map_id]
    exact pairwise_ne_sortUniq strLt strLt_trans strLt_connex strLt_irrefl _
  · intro rec hmem
    rw [hrec] at hmem
    rcases List.mem_map.mp hmem with ⟨l, _, heq⟩
    subst heq
    refine ⟨rfl, rfl, rfl, ?_, ?_, ?_, ?_, ?_⟩
    · by_cases h5 : |snapSum snap l - (lastClosing daily l).getD 0| ≤ 5
      · simp only [if_pos h5]
        exact ⟨fun _ => h5, fun _ => trivial⟩
      · simp only [if_neg h5]
        exact ⟨fun hx => absurd hx (by decide), fun hx => absurd hx h5⟩
    · by_cases h5 : |snapSum snap l - (lastClosing daily l).getD 0| ≤ 5
      · simp only [if_pos h5]
        exact ⟨fun hx => absurd hx (by decide), fun hx => absurd h5 (not_le.mpr hx)⟩
      · simp only [if_neg h5]
        exact ⟨fun _ => lt_of_not_le h5, fun _ => trivial⟩
    · by_cases h10 : 10 < |snapSum snap l - (lastClosing daily l).getD 0|
      · simp only [if_pos h10]
        exact ⟨fun _ => h10, fun _ => trivial⟩
      · simp only [if_neg h10]
        by_cases h5 : 5 < |snapSum snap l - (lastClosing daily l).getD 0|
        · simp only [if_pos h5]
          exact ⟨fun hx => absurd hx (by decide), fun hx => absurd hx h10⟩
        · simp only [if_neg h5]
          exact ⟨fun hx => absurd hx (by decide), fun hx => absurd hx h10⟩
    · by_cases h10 : 10 < |snapSum snap l - (lastClosing daily l).getD 0|
      · simp only [if_pos h10]
        constructor
        · intro hx
          exact absurd hx (by decide)
        · intro hx
          exact absurd h10 (not_lt.mpr hx.2)
      · simp only [if_neg h10]
        by_cases h5 : 5 < |snapSum snap l - (lastClosing daily l).getD 0|
        · simp only [if_pos h5]
          exact ⟨fun _ => ⟨h5, not_lt.mp h10⟩, fun _ => trivial⟩
        · simp only [if_neg h5]
          exact ⟨fun hx => absurd hx (by decide), fun hx => absurd hx.1 h5⟩
    · by_cases h10 : 10 < |snapSum snap l - (lastClosing daily l).getD 0|
      · simp only [if_pos h10]
        constructor
        · intro hx
          exact absurd hx (by decide)
        · intro hx
          have hcontra : (10 : Rat) < 5 := lt_of_lt_of_le h10 hx
          exact absurd hcontra (by norm_num)
      · simp only [if_neg h10]
        by_cases h5 : 5 < |snapSum snap l - (lastClosing daily l).getD 0|
        · simp only [if_pos h5]
          exact ⟨fun hx => absurd hx (by decide), fun hx => absurd h5 (not_lt.mpr hx)⟩
        · simp only [if_neg h5]
          exact ⟨fun _ => not_lt.mp h5, fun _ => trivial⟩

/-- C6 witness: the union-membership branch of the amended claim, at a
concrete ledger/snapshot pair where the location MIR exists only on the
snapshot side. -/
theorem C6_reconcile_amended_witness :
    (∃ rec ∈ reconcile [DailyRow.mk "DSV Indoor" 0 812] [OnhandRow.mk "MIR" 820],
      rec.Loc = "MIR") ↔
    ("MIR" ∈ ([DailyRow.mk "DSV Indoor" 0 812].map (fun r => r.Loc)) ∨
     "MIR" ∈ ([OnhandRow.mk "MIR" 820].map (fun r => r.Loc_To))) :=
  (C6_reconcile_amended [DailyRow.mk "DSV Indoor" 0 812] [OnhandRow.mk "MIR" 820]
    (by decide) (by decide)).1 "MIR"

end HVDC

namespace HVDC

theorem analyze_dead_stock_mem_inv (now : Nat) (threshold : Int) (txs : List Tx) (e : DeadRec)
    (he : e ∈ analyze_dead_stock now threshold txs) :
    ∃ c last, lastMoveDate txs c = some last ∧ threshold ≤ daysBetween now last ∧
      e = DeadRec.mk c last (daysBetween now last)
        (((caseRows txs c).filterMap (fun t => t.qty)).head?)
        (((caseRows txs c).map (fun t => t.location)).getLast?)
        (((caseRows txs c).map (fun t => t.sourceFile)).head?) := by
  unfold analyze_dead_stock at he
  rcases List.mem_filterMap.mp he with ⟨c, _, hfc⟩
  cases hm : lastMoveDate txs c with
  | none =>
    rw [hm] at hfc
    exact absurd hfc (by simp)
  | some last =>
    rw [hm] at hfc
    dsimp only at hfc
    by_cases hth : threshold ≤ daysBetween now last
    · rw [if_pos hth] at hfc
      exact ⟨c, last, hm, hth, (Option.some.inj hfc).symm⟩
    · rw [if_neg hth] at hfc
      exact absurd hfc (by simp)

theorem analyze_dead_stock_mem_of (now : Nat) (threshold : Int) (txs : List Tx)
    (c : String) (last : Nat) (hm : lastMoveDate txs c = some last)
    (hth : threshold ≤ daysBetween now last) :
    DeadRec.mk c last (daysBetween now last)
      (((caseRows txs c).filterMap (fun t => t.qty)).head?)
      (((caseRows txs c).map (fun t => t.location)).getLast?)
      (((caseRows txs c).map (fun t => t.sourceFile)).head?) ∈
      analyze_dead_stock now threshold txs := by
  unfold analyze_dead_stock
  apply List.mem_filterMap.mpr
  refine ⟨c, ?_, ?_⟩
  · rw [mem_sortUniq]
    have hne : caseRows txs c ≠ [] := by
      intro hnil
      unfold lastMoveDate at hm
      rw [hnil] at hm
      exact absurd hm (by simp)
    rcases List.exists_mem_of_ne_nil _ hne with ⟨t, ht⟩
    rcases List.mem_filter.mp ht with ⟨htx, hcn⟩
    exact List.mem_map.mpr ⟨t, htx, of_decide_eq_true hcn⟩
  · dsimp only
    rw [hm]
    dsimp only
    rw [if_pos hth]

/-- C9 counterexample: for a case whose two-move history ends exactly 180
days before the analysis time, the dead-stock output contains the case even
though its age does not exceed the 180-day threshold, and the record carries
DSV Indoor — the origin of the final move, taken from the last transaction
row, which is the EXIT row — while the last known location of the case is
DSV Outdoor, the destination of its final IN. -/
theorem C9_counterexample :
    (analyze_dead_stock 24192000 180 (create_transaction_log
      [LoadEvent.mk "C" 0 (some 5) "DSV Indoor" "a" "f",
       LoadEvent.mk "C" 8640000 (some 5) "DSV Outdoor" "b" "f"])).map
      (fun e => (e.Case_No, e.Location, e.Days_Since_Last_Move)) =
      [("C", some "DSV Indoor", 180)] ∧
    ((create_transaction_log
      [LoadEvent.mk "C" 0 (some 5) "DSV Indoor" "a" "f",
       LoadEvent.mk "C" 8640000 (some 5) "DSV Outdoor" "b" "f"]).filter
        (fun t => decide (t.txType = "IN"))).getLast?.map (fun t => t.location) =
      some "DSV Outdoor" ∧
    ¬((180 : Int) > 180) := by
  refine ⟨by decide, by decide, by decide⟩

/-- C9 (amended): a case appears in the dead-stock output exactly when the
whole-day age of its most recent transaction timestamp is at least (not
strictly greater than) the threshold; the flagged record carries the
Location of the last transaction-log row of the case (for a case with two or
more events this is the origin of its final move, not its destination), the
first non-null quantity, and the recorded age and last-move timestamp. -/
theorem C9_dead_stock_amended (now : Nat) (threshold : Int) (txs : List Tx) :
    (∀ c : String,
      (∃ e ∈ analyze_dead_stock now threshold txs, e.Case_No = c) ↔
      (∃ last : Nat, lastMoveDate txs c = some last ∧
        threshold ≤ daysBetween now last)) ∧
    (∀ e ∈ analyze_dead_stock now threshold txs,
      e.Location = ((caseRows txs e.Case_No).map (fun t => t.location)).getLast? ∧
      e.Qty = ((caseRows txs e.Case_No).filterMap (fun t => t.qty)).head? ∧
      e.Days_Since_Last_Move = daysBetween now e.Last_Move_Date ∧
      lastMoveDate txs e.Case_No = some e.Last_Move_Date ∧
      threshold ≤ e.Days_Since_Last_Move) := by
  constructor
  · intro c
    constructor
    · intro h
      rcases h with ⟨e, he, hcn⟩
      rcases analyze_dead_stock_mem_inv now threshold txs e he with ⟨c', last, hm, hth, hee⟩
      have hcc : c' = c := by
        rw [← hcn, hee]
      subst hcc
      exact ⟨last, hm, hth⟩
    · intro h
      rcases h with ⟨last, hm, hth⟩
      exact ⟨_, analyze_dead_stock_mem_of now threshold txs c last hm hth, rfl⟩
  · intro e he
    rcases analyze_dead_stock_mem_inv now threshold txs e he with ⟨c', last, hm, hth, hee⟩
    have hcn : e.Case_No = c' := by rw [hee]
    rw [hee]
    rw [← hcn] at hm ⊢
    exact ⟨by rw [hcn], by rw [hcn], rfl, hm, hth⟩

/-- C9 witness: the membership characterization of the amended claim at a
concrete single-transaction case exactly at the threshold age. -/
theorem C9_dead_stock_amended_witness :
    ∃ e ∈ analyze_dead_stock 24192000 180
      [Tx.mk "C" 8640000 (some 5) "IN" "IN" "SOURCE" "DSV Outdoor" "DSV Outdoor"
        "UNK" "f"],
      e.Case_No = "C" :=
  ((C9_dead_stock_amended 24192000 180
      [Tx.mk "C" 8640000 (some 5) "IN" "IN" "SOURCE" "DSV Outdoor" "DSV Outdoor"
        "UNK" "f"]).1 "C").mpr
    ⟨8640000, by decide, by decide⟩

end HVDC
